import Mathlib

/-!
Verification of the Forest task scheduler / execution coordinator of the
beiwe-backend repository, shallowly embedded in Lean 4.

The embedding covers:
* the `ForestTask` row model and its status machine (the Django model's
  fields, as used by the code under `src/`),
* `celery_run_forest`, `create_forest_celery_tasks`, `enqueue_forest_task`,
  `create_local_data_files` and `save_cached_files` from
  `src/services/celery_forest.py`,
* the cancel path of `task_log` and the status-grid computation of
  `analysis_progress` from `src/pages/forest_pages.py`.

Conventions: the database is a list of `ForestTask` rows (primary key `id`);
dates are integer day numbers; wall-clock instants are naturals (seconds).
External effects (S3, the filesystem, the forest library, clock values, and
whether a given database operation succeeds) are supplied by a `PipelineEnv`
record, so the coordinator is a pure function from an environment, a
database and a task id to a `RunResult`.
-/

/-- Lifecycle states of a Forest task (`ForestTask.Status` /
`ForestTracker.Status` in the Django models). -/
inductive Status where
  | queued
  | running
  | success
  | error
  | cancelled
deriving DecidableEq, Repr

/-- Display name of a status, as shown in the task-log / progress chart. -/
def statusName : Status → String
  | .queued => "queued"
  | .running => "running"
  | .success => "success"
  | .error => "error"
  | .cancelled => "cancelled"

/-- The fixed set of Forest trees (`ForestTree` constants: jasmine and
willow are the two keys of `TREE_TO_FOREST_FUNCTION`). -/
inductive ForestTree where
  | jasmine
  | willow
deriving DecidableEq, Repr

/-- `ForestTree.values()`: the fixed list of known trees. -/
def ForestTree.values : List ForestTree := [ForestTree.jasmine, ForestTree.willow]

/-- Display name of a tree. -/
def treeName : ForestTree → String
  | .jasmine => "jasmine"
  | .willow => "willow"

/-- A `ChunkRegistry` row: one immutable stored segment of participant data,
with its storage path and byte size (the fields read by
`celery_run_forest` and `create_local_data_files`). -/
structure Chunk where
  participant : Nat
  study_object_id : String
  chunk_path : String
  file_size : Int
  time_bin : Int
deriving DecidableEq, Repr

/-- A `ForestTask` row (`database.tableau_api_models`), with the fields the
code under `src/` reads and writes.  `id` is the primary key;
`external_id` is the stable public identifier used by the cancel path. -/
structure ForestTask where
  id : Nat
  external_id : Nat
  participant : Nat
  forest_tree : ForestTree
  data_date_start : Int
  data_date_end : Int
  status : Status
  forest_version : Option String
  process_start_time : Option Nat
  process_download_end_time : Option Nat
  process_end_time : Option Nat
  total_file_size : Option Int
  stacktrace : Option String
  params_dict_cache : Option String
  all_bv_set_bytes : Option (List Nat)
  all_memory_dict_bytes : Option (List Nat)
  created_on : Nat
deriving DecidableEq, Repr

/-- Saving a row: `tracker.save(...)` persists the in-memory object over the
row with the same primary key. -/
def updateTask (db : List ForestTask) (t : ForestTask) : List ForestTask :=
  db.map (fun u => if u.id = t.id then t else u)

/-- A celery dispatch record: the options `enqueue_forest_task` passes to
`safe_apply_async` together with the task arguments. -/
structure DispatchRecord where
  args : List Nat
  expires : Nat
  max_retries : Nat
  retry : Bool
  task_publish_retry : Bool
  task_track_started : Bool
deriving DecidableEq, Repr

/-- `(datetime.utcnow() + timedelta(minutes=5)).replace(second=30,
microsecond=0)`, on seconds-since-epoch: add five minutes, floor to the
minute, then set the seconds digit to 30. -/
def expiryInstant (now : Nat) : Nat :=
  ((now + 300) / 60) * 60 + 30

/-- `enqueue_forest_task` from `src/services/celery_forest.py`: build the
dispatch options (five-minute expiry, zero retries) around the given task
arguments and submit them to the celery backend. -/
def enqueue_forest_task (now : Nat) (args : List Nat) : DispatchRecord :=
  { args := args
    expires := expiryInstant now
    max_retries := 0
    retry := false
    task_publish_retry := false
    task_track_started := true }

/-- `create_forest_celery_tasks`: scan all `queued` tasks and enqueue one
celery dispatch per task. -/
def create_forest_celery_tasks (now : Nat) (db : List ForestTask) : List DispatchRecord :=
  (db.filter (fun t => decide (t.status = Status.queued))).map
    (fun t => enqueue_forest_task now [t.id])

/-- `order_by("-data_date_start").first()` on a non-empty list: keep the
element with the largest `data_date_start` (first encountered wins ties,
making the selection deterministic). -/
def pickLatest : List ForestTask → Option ForestTask
  | [] => none
  | t :: ts =>
      some (ts.foldl (fun a b => if a.data_date_start < b.data_date_start then b else a) t)

/-- The queued-sibling selection of `celery_run_forest`:
`trackers.filter(status=queued).order_by("-data_date_start").first()`. -/
def selectLatestQueued (ts : List ForestTask) : Option ForestTask :=
  pickLatest (ts.filter (fun t => decide (t.status = Status.queued)))

/-- The row filter `.filter(id=forest_task_id)`. -/
def isTask (fid : Nat) : ForestTask → Bool := fun t => decide (t.id = fid)

/-- The sibling filter `.filter(participant=participant, forest_tree=forest_tree)`
for the candidate's pair. -/
def siblingOf (t0 : ForestTask) : ForestTask → Bool :=
  fun t => decide (t.participant = t0.participant ∧ t.forest_tree = t0.forest_tree)

/-- The `.filter(status=ForestTask.Status.running)` predicate. -/
def isRunningB : ForestTask → Bool := fun t => decide (t.status = Status.running)

/-- External state and effect outcomes for one coordinator run: clock
readings, the chunk registry, the pre-existing scratch files, the library
functions the pipeline calls, and whether the database operations outside
the critical section succeed. -/
structure PipelineEnv where
  now0 : Nat
  now1 : Nat
  now2 : Nat
  now3 : Nat
  forestVersion : String
  chunks : List Chunk
  fs0 : List String
  dfn : Chunk → String
  s3content : Chunk → Option String
  fileSizeStepOk : Bool
  finalSaveOk : Bool
  paramsJson : String
  forestFnResult : ForestTree → Option String
  summaryResult : Option String
  bvSetFile : Option (List Nat)
  memoryDictFile : Option (List Nat)

/-- Modelled from the spec: the per-task scratch directory
(`tracker.data_input_path`, a property of the model class, which is not
under `src/`; the spec describes it as a private per-task workspace). -/
def ForestTask.data_input_path (t : ForestTask) : String :=
  "forest_workspace/" ++ toString t.id

/-- Stamp a selected task `running`: status, forest version and process
start time, as saved with `update_fields=["status", "forest_version",
"process_start_time"]`. -/
def markRunning (env : PipelineEnv) (sel : ForestTask) : ForestTask :=
  { sel with
      status := Status.running
      forest_version := some env.forestVersion
      process_start_time := some env.now1 }

/-- Outcome of the `transaction.atomic()` block of `celery_run_forest`. -/
inductive LockOutcome where
  | notFound
  | conflict (candidateId : Nat)
  | noQueued
  | marked (sel : ForestTask)
deriving DecidableEq, Repr

/-- The row-locked transaction block of `celery_run_forest` (lines 47-79 of
`src/services/celery_forest.py`): load the candidate (raising
`AttributeError` on the `None` attribute access when the id is absent),
lock the (participant, tree) siblings, re-dispatch on a running sibling,
otherwise mark the latest-`data_date_start` queued sibling running. -/
def transactionSection (env : PipelineEnv) (db : List ForestTask) (fid : Nat) :
    List ForestTask × LockOutcome :=
  match db.find? (isTask fid) with
  | none => (db, LockOutcome.notFound)
  | some tracker0 =>
      let sibs := db.filter (siblingOf tracker0)
      if sibs.any isRunningB then
        (db, LockOutcome.conflict tracker0.id)
      else
        match selectLatestQueued sibs with
        | none => (db, LockOutcome.noQueued)
        | some sel => (updateTask db (markRunning env sel), LockOutcome.marked sel)

/-- A concrete queued task for examples. -/
def egTask (i : Nat) (p : Nat) (tr : ForestTree) (ds de : Int) (st : Status) (created : Nat) :
    ForestTask :=
  { id := i
    external_id := i
    participant := p
    forest_tree := tr
    data_date_start := ds
    data_date_end := de
    status := st
    forest_version := none
    process_start_time := none
    process_download_end_time := none
    process_end_time := none
    total_file_size := none
    stacktrace := none
    params_dict_cache := none
    all_bv_set_bytes := none
    all_memory_dict_bytes := none
    created_on := created }

/-- A concrete environment for examples. -/
def egEnv : PipelineEnv :=
  { now0 := 1000
    now1 := 1001
    now2 := 1002
    now3 := 1003
    forestVersion := "1.0.0"
    chunks := []
    fs0 := []
    dfn := fun c => c.chunk_path
    s3content := fun _ => some "data"
    fileSizeStepOk := true
    finalSaveOk := true
    paramsJson := "{}"
    forestFnResult := fun _ => none
    summaryResult := none
    bvSetFile := none
    memoryDictFile := none }

/-- `create_local_data_files`: for each chunk, retrieve its contents from S3
(raising on a missing key), form the local file name under the task's
scratch directory, and open it in exclusive-create mode `"x"` — raising
`FileExistsError` when the name is already present.  The state is the set
of existing local file names; on success the new set is returned. -/
def create_local_data_files (env : PipelineEnv) (t : ForestTask) :
    List String → List Chunk → Except String (List String)
  | fs, [] => Except.ok fs
  | fs, c :: rest =>
      match env.s3content c with
      | none => Except.error "NotFound: s3_retrieve"
      | some _ =>
          let file_name := t.data_input_path ++ "/" ++ env.dfn c
          if file_name ∈ fs then Except.error "FileExistsError"
          else create_local_data_files env t (file_name :: fs) rest

/-- `save_cached_files`: persist the `all_bv_set` and `all_memory_dict`
artifacts to the tracker when the corresponding output files exist. -/
def save_cached_files (env : PipelineEnv) (t : ForestTask) : ForestTask :=
  let t1 := match env.bvSetFile with
    | some b => { t with all_bv_set_bytes := some b }
    | none => t
  match env.memoryDictFile with
  | some m => { t1 with all_memory_dict_bytes := some m }
  | none => t1

/-- Models `tracker.save(update_field=[...])` on lines 89 and 93 of
`src/services/celery_forest.py`.  Django's `Model.save` signature accepts
`update_fields`; the misspelled keyword `update_field` is an unexpected
keyword argument, so the call raises `TypeError` (compare the correctly
spelled calls on lines 79 and 84). -/
def saveWithUpdateFieldTypo (_t : ForestTask) : Except String Unit :=
  Except.error "TypeError: save() got an unexpected keyword argument: update_field"

/-- The `try:` block of `celery_run_forest` (lines 86-96): download the
chunks, stamp the download-end time and save it, cache the parameter
snapshot, run the tree's analysis function, build summary statistics and
persist the cached artifacts.  Returns the in-memory tracker at the point
the block ended, together with the raised exception text if any (the
`except Exception` on line 98 catches it and stores `traceback.format_exc()`).
The two `save(update_field=...)` calls raise `TypeError`, so control in fact
never passes the first of them; the remaining steps are modelled for
completeness but are unreachable. -/
def runPipelineTry (env : PipelineEnv) (t0 : ForestTask) (chunks : List Chunk) :
    ForestTask × Option String :=
  match create_local_data_files env t0 env.fs0 chunks with
  | Except.error e => (t0, some e)
  | Except.ok _ =>
      let t1 := { t0 with process_download_end_time := some env.now2 }
      match saveWithUpdateFieldTypo t1 with
      | Except.error e => (t1, some e)
      | Except.ok _ =>
          let t2 := { t1 with params_dict_cache := some env.paramsJson }
          match saveWithUpdateFieldTypo t2 with
          | Except.error e => (t2, some e)
          | Except.ok _ =>
              match env.forestFnResult t2.forest_tree with
              | some e => (t2, some e)
              | none =>
                  match env.summaryResult with
                  | some e => (t2, some e)
                  | none => (save_cached_files env t2, none)

/-- `Sum('file_size')` aggregate: `None` over an empty queryset, otherwise
the sum of the sizes. -/
def aggregateFileSizeSum (chunks : List Chunk) : Option Int :=
  if chunks.isEmpty then none else some (chunks.map (fun c => c.file_size)).sum

/-- `ChunkRegistry.objects.filter(participant=participant)`. -/
def participantChunks (env : PipelineEnv) (p : Nat) : List Chunk :=
  env.chunks.filter (fun c => decide (c.participant = p))

/-- The observable outcome of one `celery_run_forest` invocation: the
database after the run, the dispatches it (re-)submitted, whether
`tracker.clean_up_files()` was reached, and the text of an exception that
escaped the function, if any. -/
structure RunResult where
  db : List ForestTask
  dispatched : List DispatchRecord
  cleaned : Bool
  raised : Option String
deriving DecidableEq, Repr

/-- `celery_run_forest` from `src/services/celery_forest.py`: the locked
transaction block, then (outside the lock) the file-size computation, the
`try/except/else` pipeline, the final full `tracker.save()` and the
workspace cleanup.  The file-size step (lines 82-84) and the final save
(line 104) are database operations outside the `try:` block, so their
failure escapes the function; `env.fileSizeStepOk` / `env.finalSaveOk` give
their outcomes. -/
def celery_run_forest (env : PipelineEnv) (db : List ForestTask) (fid : Nat) : RunResult :=
  match transactionSection env db fid with
  | (db1, LockOutcome.notFound) =>
      { db := db1, dispatched := [], cleaned := false
        raised := some "AttributeError: NoneType object has no attribute participant" }
  | (db1, LockOutcome.conflict cid) =>
      { db := db1, dispatched := [enqueue_forest_task env.now0 [cid]]
        cleaned := false, raised := none }
  | (db1, LockOutcome.noQueued) =>
      { db := db1, dispatched := [], cleaned := false, raised := none }
  | (db1, LockOutcome.marked sel) =>
      let tracker := markRunning env sel
      if env.fileSizeStepOk = false then
        { db := db1, dispatched := [], cleaned := false
          raised := some "OperationalError: file size step" }
      else
        let chunks := participantChunks env tracker.participant
        let tracker1 := { tracker with total_file_size := aggregateFileSizeSum chunks }
        let db2 := updateTask db1 tracker1
        let stepped := runPipelineTry env tracker1 chunks
        let tracker2 := match stepped.2 with
          | some e => { stepped.1 with status := Status.error, stacktrace := some e }
          | none => { stepped.1 with status := Status.success }
        let tracker3 := { tracker2 with process_end_time := some env.now3 }
        if env.finalSaveOk = false then
          { db := db2, dispatched := [], cleaned := false
            raised := some "OperationalError: final save" }
        else
          { db := updateTask db2 tracker3, dispatched := [], cleaned := true
            raised := none }

/-- The cancel path of `task_log` (`src/pages/forest_pages.py` lines
161-176): a single queryset `update` that sets status `CANCELLED` and the
audit note on exactly the rows matching the given `external_id` with
status `QUEUED`, returning whether any row was updated. -/
def cancel_forest_task (db : List ForestTask) (eid : Nat) (username : String)
    (today : String) : List ForestTask × Bool :=
  let note := "Canceled by " ++ username ++ " on " ++ today
  let updated := db.map (fun t =>
    if t.external_id = eid ∧ t.status = Status.queued then
      { t with status := Status.cancelled, stacktrace := some note }
    else t)
  let n := db.countP (fun t => decide (t.external_id = eid ∧ t.status = Status.queued))
  (updated, decide (0 < n))

/-- `daterange(a, b, inclusive=True)`: the integer days from `a` to `b`
inclusive (empty when `a > b`). -/
def daterange (a b : Int) : List Int :=
  (List.range (b - a + 1).toNat).map (fun (n : Nat) => a + (n : Int))

/-- The relation `order_by("created_on")` sorts by. -/
def createdLE (a b : ForestTask) : Prop := a.created_on ≤ b.created_on

instance : DecidableRel createdLE := fun a b => Nat.decLe a.created_on b.created_on

instance : IsTotal ForestTask createdLE := ⟨fun a b => Nat.le_total a.created_on b.created_on⟩

instance : IsTrans ForestTask createdLE := ⟨fun _ _ _ h h' => Nat.le_trans h h'⟩

/-- One loop iteration of the chart builder: write the tracker's status
into every `(participant, tree, date)` cell its inclusive date range
covers, leaving other cells as before. -/
def applyTracker (acc : Nat → ForestTree → Int → String) (t : ForestTask) :
    Nat → ForestTree → Int → String :=
  fun p tr d =>
    if p = t.participant ∧ tr = t.forest_tree ∧
        d ∈ daterange t.data_date_start t.data_date_end then
      statusName t.status
    else acc p tr d

/-- The `results` defaultdict of `analysis_progress`: fold the trackers in
`created_on` order over the all-`"--"` table, later trackers overwriting
earlier ones. -/
def resultsFun (trackers : List ForestTask) : Nat → ForestTree → Int → String :=
  (trackers.insertionSort createdLE).foldl applyTracker (fun _ _ _ => "--")

/-- The chart of `analysis_progress` (`src/pages/forest_pages.py` lines
37-69): one row per (participant, tree) of the cross product, holding the
participant, the tree and the per-date cells over the charted date range.
The trackers considered are those of the study's participants.  The view is
read-only: it returns the tracker rows unchanged alongside the chart. -/
def analysis_progress (participants : List Nat) (trackers : List ForestTask)
    (start_date end_date : Int) : List (List String) × List ForestTask :=
  let mine := trackers.filter (fun t => decide (t.participant ∈ participants))
  let f := resultsFun mine
  let dates := daterange start_date end_date
  let chart := participants.flatMap (fun p =>
    ForestTree.values.map (fun tr =>
      toString p :: treeName tr :: dates.map (fun d => f p tr d)))
  (chart, trackers)

/-- The running task of a given (participant, tree) pair. -/
def runningFor (p : Nat) (tr : ForestTree) : ForestTask → Bool :=
  fun t => decide (t.participant = p ∧ t.forest_tree = tr ∧ t.status = Status.running)

/-- The mutual-exclusion invariant: for every (participant, tree) pair, at
most one task row is in `running` state. -/
def atMostOneRunning (db : List ForestTask) : Prop :=
  ∀ p tr, db.countP (runningFor p tr) ≤ 1

/-- A task's inclusive date range `[data_date_start, data_date_end]` covers
a date. -/
def covers (t : ForestTask) (d : Int) : Prop :=
  t.data_date_start ≤ d ∧ d ≤ t.data_date_end

instance (t : ForestTask) (d : Int) : Decidable (covers t d) :=
  inferInstanceAs (Decidable (_ ∧ _))

/-- The element of largest `created_on`, if any (first encountered wins
ties). -/
def pickMaxCreated : List ForestTask → Option ForestTask
  | [] => none
  | t :: ts => some (ts.foldl (fun a b => if a.created_on < b.created_on then b else a) t)

/-- Written from the spec's words, for comparison with the chart the code
builds: the status of the most recent (greatest `created_on`) task of this
participant and tree whose inclusive date range covers the date, or the
sentinel `"--"` when no task covers it. -/
def mostRecentCoveringStatus (trackers : List ForestTask) (p : Nat) (tr : ForestTree)
    (d : Int) : String :=
  match pickMaxCreated (trackers.filter
      (fun t => decide (t.participant = p ∧ t.forest_tree = tr ∧ covers t d))) with
  | none => "--"
  | some t => statusName t.status

/-- The cell-matching condition of one chart-builder iteration, as a
Boolean predicate (the `if` condition of `applyTracker`). -/
def coverPred (p : Nat) (tr : ForestTree) (d : Int) : ForestTask → Bool :=
  fun t => decide (p = t.participant ∧ tr = t.forest_tree ∧
    d ∈ daterange t.data_date_start t.data_date_end)

/-! ### Helper lemmas -/

theorem updateTask_id_not_mem {db : List ForestTask} {t : ForestTask}
    (h : ∀ u ∈ db, u.id ≠ t.id) : updateTask db t = db := by
  induction db with
  | nil => rfl
  | cons u us ih =>
      simp only [updateTask, List.map_cons] at *
      rw [if_neg (h u (by simp))]
      have := ih (fun v hv => h v (by simp [hv]))
      simp only [updateTask] at this
      rw [this]

theorem updateTask_updateTask {db : List ForestTask} {a b : ForestTask}
    (h : a.id = b.id) : updateTask (updateTask db a) b = updateTask db b := by
  induction db with
  | nil => rfl
  | cons u us ih =>
      simp only [updateTask, List.map_cons, List.cons.injEq] at *
      constructor
      · by_cases hu : u.id = a.id
        · rw [if_pos hu, if_pos h, if_pos (hu.trans h)]
        · rw [if_neg hu]
      · exact ih

theorem countP_updateTask_le_of_not {P : ForestTask → Bool} {db : List ForestTask}
    {t : ForestTask} (hP : P t = false) :
    (updateTask db t).countP P ≤ db.countP P := by
  induction db with
  | nil => simp [updateTask]
  | cons u us ih =>
      simp only [updateTask, List.map_cons, List.countP_cons] at *
      by_cases hu : u.id = t.id
      · rw [if_pos hu, hP]
        simp only [cond_false, Bool.false_eq_true, if_false, add_zero]
        exact Nat.le_add_right_of_le ih
      · rw [if_neg hu]
        exact Nat.add_le_add ih (Nat.le_refl _)

theorem countP_updateTask_le_one {P : ForestTask → Bool} {db : List ForestTask}
    {t : ForestTask} (h0 : db.countP P = 0)
    (hnd : (db.map ForestTask.id).Nodup) :
    (updateTask db t).countP P ≤ 1 := by
  induction db with
  | nil => simp [updateTask]
  | cons u us ih =>
      simp only [List.countP_cons, List.map_cons, List.nodup_cons] at h0 hnd
      have hPu : P u = false := by
        by_contra hc
        simp only [Bool.not_eq_false] at hc
        simp [hc] at h0
      have hus : us.countP P = 0 := by omega
      simp only [updateTask, List.map_cons, List.countP_cons]
      by_cases hu : u.id = t.id
      · rw [if_pos hu]
        have hnone : ∀ v ∈ us, v.id ≠ t.id := by
          intro v hv hvt
          have hvm : v.id ∈ us.map ForestTask.id := List.mem_map_of_mem ForestTask.id hv
          rw [hvt, ← hu] at hvm
          exact hnd.1 hvm
        rw [show (List.map (fun v => if v.id = t.id then t else v) us) =
              updateTask us t from rfl, updateTask_id_not_mem hnone, hus]
        by_cases hPt : P t = true
        · simp [hPt]
        · simp only [Bool.not_eq_true] at hPt
          simp [hPt]
      · rw [if_neg hu, hPu]
        simp only [Bool.false_eq_true, if_false, add_zero]
        exact ih hus hnd.2

theorem countP_eq_zero_of_all {P : ForestTask → Bool} {l : List ForestTask}
    (h : ∀ t ∈ l, P t = false) : l.countP P = 0 := by
  induction l with
  | nil => rfl
  | cons u us ih =>
      simp only [List.countP_cons, h u (by simp), Bool.false_eq_true, if_false, add_zero]
      exact ih (fun v hv => h v (by simp [hv]))

theorem foldl_choice_mem {α : Type} {f : α → α → α}
    (hf : ∀ a b, f a b = a ∨ f a b = b) :
    ∀ (l : List α) (a : α), l.foldl f a = a ∨ l.foldl f a ∈ l := by
  intro l
  induction l with
  | nil => intro a; left; rfl
  | cons u us ih =>
      intro a
      simp only [List.foldl_cons]
      rcases ih (f a u) with h | h
      · rcases hf a u with h' | h'
        · left; rw [h, h']
        · right; rw [h, h']; simp
      · right; simp [h]

theorem pickLatest_mem {l : List ForestTask} {m : ForestTask}
    (h : pickLatest l = some m) : m ∈ l := by
  match l with
  | [] => simp [pickLatest] at h
  | t :: ts =>
      simp only [pickLatest, Option.some.injEq] at h
      subst h
      have hch : ∀ (a b : ForestTask),
          (if a.data_date_start < b.data_date_start then b else a) = a ∨
          (if a.data_date_start < b.data_date_start then b else a) = b := by
        intro a b
        by_cases hc : a.data_date_start < b.data_date_start <;> simp [hc]
      rcases foldl_choice_mem hch ts t with h | h
      · rw [h]; simp
      · simp [h]

theorem foldl_latest_ge (ts : List ForestTask) (a : ForestTask) :
    a.data_date_start ≤
      (ts.foldl (fun a b => if a.data_date_start < b.data_date_start then b else a)
        a).data_date_start ∧
    ∀ x ∈ ts, x.data_date_start ≤
      (ts.foldl (fun a b => if a.data_date_start < b.data_date_start then b else a)
        a).data_date_start := by
  induction ts generalizing a with
  | nil => simp
  | cons u us ih =>
      simp only [List.foldl_cons, List.mem_cons]
      have step : a.data_date_start ≤
            (if a.data_date_start < u.data_date_start then u else a).data_date_start ∧
          u.data_date_start ≤
            (if a.data_date_start < u.data_date_start then u else a).data_date_start := by
        by_cases hc : a.data_date_start < u.data_date_start
        · rw [if_pos hc]; exact ⟨le_of_lt hc, le_refl _⟩
        · rw [if_neg hc]; exact ⟨le_refl _, le_of_not_lt hc⟩
      obtain ⟨h1, h2⟩ := ih (if a.data_date_start < u.data_date_start then u else a)
      refine ⟨le_trans step.1 h1, ?_⟩
      rintro x (rfl | hx)
      · exact le_trans step.2 h1
      · exact h2 x hx

theorem pickLatest_max {l : List ForestTask} {m : ForestTask}
    (h : pickLatest l = some m) :
    ∀ x ∈ l, x.data_date_start ≤ m.data_date_start := by
  match l with
  | [] => simp [pickLatest] at h
  | t :: ts =>
      simp only [pickLatest, Option.some.injEq] at h
      subst h
      obtain ⟨h1, h2⟩ := foldl_latest_ge ts t
      intro x hx
      rcases List.mem_cons.mp hx with hx1 | hx2
      · rw [hx1]; exact h1
      · exact h2 x hx2

/-- `selectLatestQueued` picks a queued member that maximizes
`data_date_start` among the queued members. -/
theorem selectLatestQueued_spec {ts : List ForestTask} {sel : ForestTask}
    (h : selectLatestQueued ts = some sel) :
    sel ∈ ts ∧ sel.status = Status.queued ∧
      ∀ q ∈ ts, q.status = Status.queued → q.data_date_start ≤ sel.data_date_start := by
  unfold selectLatestQueued at h
  have hmem := pickLatest_mem h
  have hmax := pickLatest_max h
  simp only [List.mem_filter, decide_eq_true_eq] at hmem
  refine ⟨hmem.1, hmem.2, ?_⟩
  intro q hq hqs
  exact hmax q (by simp [List.mem_filter, hq, hqs])

theorem transactionSection_conflict_eq {env : PipelineEnv} {db : List ForestTask}
    {fid : Nat} {t0 : ForestTask}
    (hf : db.find? (isTask fid) = some t0)
    (hrun : (db.filter (siblingOf t0)).any isRunningB = true) :
    transactionSection env db fid = (db, LockOutcome.conflict t0.id) := by
  unfold transactionSection
  rw [hf]
  simp only [hrun, if_true]

theorem transactionSection_notFound_eq {env : PipelineEnv} {db : List ForestTask}
    {fid : Nat} (hf : db.find? (isTask fid) = none) :
    transactionSection env db fid = (db, LockOutcome.notFound) := by
  unfold transactionSection
  rw [hf]

theorem transactionSection_noQueued_eq {env : PipelineEnv} {db : List ForestTask}
    {fid : Nat} {t0 : ForestTask}
    (hf : db.find? (isTask fid) = some t0)
    (hrun : (db.filter (siblingOf t0)).any isRunningB = false)
    (hsel : selectLatestQueued (db.filter (siblingOf t0)) = none) :
    transactionSection env db fid = (db, LockOutcome.noQueued) := by
  unfold transactionSection
  rw [hf]
  simp only [hrun, Bool.false_eq_true, if_false, hsel]

/-- Facts available when the transaction block marks a task running: the
resulting database, that the selected task was a queued sibling with no
running sibling, and that it maximizes `data_date_start` among the queued
siblings. -/
theorem transactionSection_marked {env : PipelineEnv} {db db' : List ForestTask}
    {fid : Nat} {sel : ForestTask}
    (h : transactionSection env db fid = (db', LockOutcome.marked sel)) :
    db' = updateTask db (markRunning env sel) ∧
    sel ∈ db ∧ sel.status = Status.queued ∧
    (∀ t ∈ db, t.participant = sel.participant → t.forest_tree = sel.forest_tree →
      t.status ≠ Status.running) ∧
    (∀ q ∈ db, q.participant = sel.participant → q.forest_tree = sel.forest_tree →
      q.status = Status.queued → q.data_date_start ≤ sel.data_date_start) := by
  unfold transactionSection at h
  cases hf : db.find? (isTask fid) with
  | none => rw [hf] at h; simp at h
  | some t0 =>
      rw [hf] at h
      simp only at h
      by_cases hrun : (db.filter (siblingOf t0)).any isRunningB
      · rw [if_pos hrun] at h; simp at h
      · rw [if_neg hrun] at h
        cases hsel : selectLatestQueued (db.filter (siblingOf t0)) with
        | none => rw [hsel] at h; simp at h
        | some s =>
            rw [hsel] at h
            simp only [Prod.mk.injEq, LockOutcome.marked.injEq] at h
            obtain ⟨hdb, hs⟩ := h
            subst hs
            obtain ⟨hmem, hq, hmax⟩ := selectLatestQueued_spec hsel
            simp only [List.mem_filter, siblingOf, decide_eq_true_eq] at hmem
            obtain ⟨hseldb, hsp, hst⟩ := hmem
            have hnorun : ∀ t ∈ db.filter (siblingOf t0), t.status ≠ Status.running := by
              intro t ht
              have := List.any_eq_false.mp (Bool.not_eq_true _ ▸ hrun) t ht
              simpa [isRunningB] using this
            refine ⟨hdb.symm, hseldb, hq, ?_, ?_⟩
            · intro t htdb hp htr
              exact hnorun t (by
                simp only [List.mem_filter, siblingOf, decide_eq_true_eq]
                exact ⟨htdb, by rw [hp, hsp], by rw [htr, hst]⟩)
            · intro q hqdb hp htr hqs
              exact hmax q (by
                simp only [List.mem_filter, siblingOf, decide_eq_true_eq]
                exact ⟨hqdb, by rw [hp, hsp], by rw [htr, hst]⟩) hqs


theorem create_local_data_files_error_ne {env : PipelineEnv} {t : ForestTask}
    {fs : List String} {cs : List Chunk} {e : String}
    (h : create_local_data_files env t fs cs = Except.error e) : e ≠ "" := by
  induction cs generalizing fs with
  | nil => simp [create_local_data_files] at h
  | cons c rest ih =>
      unfold create_local_data_files at h
      cases hs : env.s3content c with
      | none =>
          rw [hs] at h
          simp only [Except.error.injEq] at h
          subst h
          decide
      | some s =>
          rw [hs] at h
          by_cases hmem : t.data_input_path ++ "/" ++ env.dfn c ∈ fs
          · rw [if_pos hmem] at h
            simp only [Except.error.injEq] at h
            subst h
            decide
          · rw [if_neg hmem] at h
            exact ih h

/-- The `try:` block always ends in a raised exception: either the download
raises, or the misspelled `save(update_field=...)` raises `TypeError`.  The
returned in-memory tracker is the input, possibly with the download-end
time stamped. -/
theorem runPipelineTry_eq (env : PipelineEnv) (t0 : ForestTask) (chunks : List Chunk) :
    runPipelineTry env t0 chunks =
      match create_local_data_files env t0 env.fs0 chunks with
      | Except.error e => (t0, some e)
      | Except.ok _ =>
          ({ t0 with process_download_end_time := some env.now2 },
           some "TypeError: save() got an unexpected keyword argument: update_field") := by
  unfold runPipelineTry
  cases h : create_local_data_files env t0 env.fs0 chunks with
  | error e => rfl
  | ok fs => rfl

/-- Interface facts about the tracker the `try:` block hands to the
`except` branch: the raised text is non-empty and all fields other than
`process_download_end_time` are unchanged. -/
theorem runPipelineTry_spec (env : PipelineEnv) (t0 : ForestTask) (chunks : List Chunk) :
    ∃ t' e, runPipelineTry env t0 chunks = (t', some e) ∧ e ≠ "" ∧
      t'.id = t0.id ∧ t'.participant = t0.participant ∧
      t'.forest_tree = t0.forest_tree ∧ t'.status = t0.status ∧
      t'.all_bv_set_bytes = t0.all_bv_set_bytes ∧
      t'.all_memory_dict_bytes = t0.all_memory_dict_bytes ∧
      t'.total_file_size = t0.total_file_size ∧
      t'.process_start_time = t0.process_start_time ∧
      t'.forest_version = t0.forest_version ∧
      t'.stacktrace = t0.stacktrace ∧
      t'.process_end_time = t0.process_end_time := by
  rw [runPipelineTry_eq]
  cases h : create_local_data_files env t0 env.fs0 chunks with
  | error e =>
      exact ⟨t0, e, rfl, create_local_data_files_error_ne h, rfl, rfl, rfl, rfl, rfl,
        rfl, rfl, rfl, rfl, rfl, rfl⟩
  | ok fs =>
      refine ⟨{ t0 with process_download_end_time := some env.now2 }, _,
        rfl, by decide, rfl, rfl, rfl, rfl, rfl, rfl, rfl, rfl, rfl, rfl, rfl⟩

theorem celery_run_forest_notFound {env : PipelineEnv} {db db1 : List ForestTask}
    {fid : Nat} (h : transactionSection env db fid = (db1, LockOutcome.notFound)) :
    celery_run_forest env db fid =
      { db := db1, dispatched := [], cleaned := false
        raised := some "AttributeError: NoneType object has no attribute participant" } := by
  unfold celery_run_forest
  rw [h]

theorem celery_run_forest_conflict {env : PipelineEnv} {db db1 : List ForestTask}
    {fid cid : Nat} (h : transactionSection env db fid = (db1, LockOutcome.conflict cid)) :
    celery_run_forest env db fid =
      { db := db1, dispatched := [enqueue_forest_task env.now0 [cid]]
        cleaned := false, raised := none } := by
  unfold celery_run_forest
  rw [h]

theorem celery_run_forest_noQueued {env : PipelineEnv} {db db1 : List ForestTask}
    {fid : Nat} (h : transactionSection env db fid = (db1, LockOutcome.noQueued)) :
    celery_run_forest env db fid =
      { db := db1, dispatched := [], cleaned := false, raised := none } := by
  unfold celery_run_forest
  rw [h]

theorem celery_run_forest_marked_nofs {env : PipelineEnv} {db db1 : List ForestTask}
    {fid : Nat} {sel : ForestTask}
    (h : transactionSection env db fid = (db1, LockOutcome.marked sel))
    (hfs : env.fileSizeStepOk = false) :
    celery_run_forest env db fid =
      { db := db1, dispatched := [], cleaned := false
        raised := some "OperationalError: file size step" } := by
  unfold celery_run_forest
  rw [h]
  simp only [hfs, if_true]

theorem markRunning_participant (env : PipelineEnv) (sel : ForestTask) :
    (markRunning env sel).participant = sel.participant := rfl

theorem markRunning_id (env : PipelineEnv) (sel : ForestTask) :
    (markRunning env sel).id = sel.id := rfl

theorem celery_run_forest_marked_nosave {env : PipelineEnv} {db db1 : List ForestTask}
    {fid : Nat} {sel : ForestTask}
    (h : transactionSection env db fid = (db1, LockOutcome.marked sel))
    (hfs : env.fileSizeStepOk = true) (hsv : env.finalSaveOk = false) :
    celery_run_forest env db fid =
      { db := updateTask db1
          { markRunning env sel with
              total_file_size := aggregateFileSizeSum (participantChunks env sel.participant) }
        dispatched := [], cleaned := false
        raised := some "OperationalError: final save" } := by
  unfold celery_run_forest
  rw [h]
  simp only [hfs, hsv, Bool.true_eq_false, Bool.false_eq_true, if_false, if_true,
    eq_self_iff_true, markRunning_participant]

theorem celery_run_forest_marked_ok {env : PipelineEnv} {db db1 : List ForestTask}
    {fid : Nat} {sel : ForestTask}
    (h : transactionSection env db fid = (db1, LockOutcome.marked sel))
    (hfs : env.fileSizeStepOk = true) (hsv : env.finalSaveOk = true) :
    ∃ t', celery_run_forest env db fid =
        { db := updateTask db1 t', dispatched := [], cleaned := true, raised := none } ∧
      t'.id = sel.id ∧ t'.participant = sel.participant ∧
      t'.forest_tree = sel.forest_tree ∧ t'.status = Status.error ∧
      (∃ e, t'.stacktrace = some e ∧ e ≠ "") ∧
      t'.process_end_time = some env.now3 ∧
      t'.process_start_time = some env.now1 ∧
      t'.forest_version = some env.forestVersion ∧
      t'.all_bv_set_bytes = sel.all_bv_set_bytes ∧
      t'.all_memory_dict_bytes = sel.all_memory_dict_bytes ∧
      t'.total_file_size = aggregateFileSizeSum (participantChunks env sel.participant) := by
  obtain ⟨t1, e, heq, he, hid, hpart, htree, hstat, hbv, hmd, htfs, hpst, hfv, hstk, hpet⟩ :=
    runPipelineTry_spec env
      { markRunning env sel with
          total_file_size :=
            aggregateFileSizeSum (participantChunks env (markRunning env sel).participant) }
      (participantChunks env (markRunning env sel).participant)
  refine ⟨{ t1 with
              status := Status.error
              stacktrace := some e
              process_end_time := some env.now3 },
    ?_, hid.trans rfl, hpart.trans rfl,
    htree.trans rfl, rfl, ⟨e, rfl, he⟩, rfl, hpst.trans rfl, hfv.trans rfl,
    hbv.trans rfl, hmd.trans rfl, htfs.trans rfl⟩
  unfold celery_run_forest
  rw [h]
  simp only [hfs, hsv, Bool.true_eq_false, Bool.false_eq_true, if_false, if_true,
    eq_self_iff_true, heq]
  congr 1
  apply updateTask_updateTask
  exact hid.symm

theorem transactionSection_not_marked_inv {env : PipelineEnv} {db db1 : List ForestTask}
    {fid : Nat} {out : LockOutcome}
    (h : transactionSection env db fid = (db1, out))
    (hm : ∀ sel, out ≠ LockOutcome.marked sel) : db1 = db := by
  unfold transactionSection at h
  cases hf : db.find? (isTask fid) with
  | none =>
      rw [hf] at h
      simp only [Prod.mk.injEq] at h
      exact h.1.symm
  | some t0 =>
      rw [hf] at h
      simp only at h
      by_cases hrun : (db.filter (siblingOf t0)).any isRunningB
      · rw [if_pos hrun] at h
        simp only [Prod.mk.injEq] at h
        exact h.1.symm
      · rw [if_neg hrun] at h
        cases hsel : selectLatestQueued (db.filter (siblingOf t0)) with
        | none =>
            rw [hsel] at h
            simp only [Prod.mk.injEq] at h
            exact h.1.symm
        | some s =>
            rw [hsel] at h
            simp only [Prod.mk.injEq] at h
            exact absurd h.2.symm (hm s)

/-- Updating one row keeps the mutual-exclusion invariant, provided the
written row is either not `running`, or its (participant, tree) pair had no
running row. -/
theorem atMostOne_update {db : List ForestTask} {t : ForestTask}
    (hnd : (db.map ForestTask.id).Nodup) (hinv : atMostOneRunning db)
    (h0 : t.status = Status.running →
      db.countP (runningFor t.participant t.forest_tree) = 0) :
    atMostOneRunning (updateTask db t) := by
  intro p tr
  by_cases hP : runningFor p tr t = true
  · have hfacts : t.participant = p ∧ t.forest_tree = tr ∧ t.status = Status.running := by
      simpa [runningFor] using hP
    have hz : db.countP (runningFor p tr) = 0 := by
      rw [← hfacts.1, ← hfacts.2.1]
      exact h0 hfacts.2.2
    exact countP_updateTask_le_one hz hnd
  · exact le_trans
      (countP_updateTask_le_of_not (by simpa using hP))
      (hinv p tr)

/-- C1: for every (participant, tree) pair at most one task is `running` at
any instant.  First conjunct: when the coordinator is invoked with a
candidate task id and any task sharing the candidate's pair is already
running, it re-dispatches the candidate and returns with every task row
unchanged.  Second conjunct: a coordinator run preserves the
at-most-one-running invariant — a task is marked `running` only inside the
locked transaction after the check found no running sibling, and every
later write demotes that task out of `running`. -/
theorem celery_run_forest_mutual_exclusion (env : PipelineEnv) (db : List ForestTask)
    (fid : Nat) (hnd : (db.map ForestTask.id).Nodup) :
    (∀ t0, db.find? (isTask fid) = some t0 →
      (db.filter (siblingOf t0)).any isRunningB = true →
      celery_run_forest env db fid =
        { db := db, dispatched := [enqueue_forest_task env.now0 [t0.id]]
          cleaned := false, raised := none }) ∧
    (atMostOneRunning db → atMostOneRunning (celery_run_forest env db fid).db) := by
  constructor
  · intro t0 hf hrun
    exact celery_run_forest_conflict (transactionSection_conflict_eq hf hrun)
  · intro hinv
    rcases hts : transactionSection env db fid with ⟨db1, out⟩
    cases out with
    | notFound =>
        rw [celery_run_forest_notFound hts]
        rwa [transactionSection_not_marked_inv hts (by intro sel hc; cases hc)]
    | conflict cid =>
        rw [celery_run_forest_conflict hts]
        rwa [transactionSection_not_marked_inv hts (by intro sel hc; cases hc)]
    | noQueued =>
        rw [celery_run_forest_noQueued hts]
        rwa [transactionSection_not_marked_inv hts (by intro sel hc; cases hc)]
    | marked sel =>
        obtain ⟨hdb1, hmem, hq, hnorun, _⟩ := transactionSection_marked hts
        have hcount0 : db.countP (runningFor sel.participant sel.forest_tree) = 0 := by
          apply countP_eq_zero_of_all
          intro t ht
          by_contra hc
          simp only [Bool.not_eq_false, runningFor, decide_eq_true_eq] at hc
          exact hnorun t ht hc.1 hc.2.1 hc.2.2
        cases hfs : env.fileSizeStepOk with
        | false =>
            rw [celery_run_forest_marked_nofs hts hfs]
            rw [hdb1]
            exact atMostOne_update hnd hinv (fun _ => hcount0)
        | true =>
            cases hsv : env.finalSaveOk with
            | false =>
                rw [celery_run_forest_marked_nosave hts hfs hsv]
                rw [hdb1, @updateTask_updateTask db (markRunning env sel)
                  { markRunning env sel with
                      total_file_size :=
                        aggregateFileSizeSum (participantChunks env sel.participant) } rfl]
                exact atMostOne_update hnd hinv (fun _ => hcount0)
            | true =>
                obtain ⟨t', hrun, hid, hpart, htree, hstat, _, _, _, _, _, _, _⟩ :=
                  celery_run_forest_marked_ok hts hfs hsv
                rw [hrun]
                rw [hdb1, @updateTask_updateTask db (markRunning env sel) t' hid.symm]
                apply atMostOne_update hnd hinv
                intro hr
                rw [hstat] at hr
                cases hr

/-- Witness for C1 at a concrete input: a single task that is already
`running` is its own sibling, so the run re-dispatches it unchanged, and
the invariant holds afterwards. -/
theorem celery_run_forest_mutual_exclusion_witness :
    celery_run_forest egEnv [egTask 1 5 ForestTree.jasmine 1 10 Status.running 0] 1 =
      { db := [egTask 1 5 ForestTree.jasmine 1 10 Status.running 0]
        dispatched := [enqueue_forest_task 1000 [1]], cleaned := false, raised := none } ∧
    atMostOneRunning
      (celery_run_forest egEnv [egTask 1 5 ForestTree.jasmine 1 10 Status.running 0] 1).db := by
  have H := celery_run_forest_mutual_exclusion egEnv
    [egTask 1 5 ForestTree.jasmine 1 10 Status.running 0] 1 (by decide)
  refine ⟨H.1 (egTask 1 5 ForestTree.jasmine 1 10 Status.running 0) (by decide) (by decide), ?_⟩
  exact H.2 (fun p tr => le_trans (List.countP_le_length _) (by decide))

/-- C2: when the transaction block finds no running sibling and marks a
task, the task it marks `running` is a queued sibling with the
chronologically latest `data_date_start` among the queued siblings
(newest-data-first), and the database is updated exactly by writing that
task as `running`. -/
theorem celery_run_forest_newest_data_first (env : PipelineEnv) (db db' : List ForestTask)
    (fid : Nat) (sel : ForestTask)
    (h : transactionSection env db fid = (db', LockOutcome.marked sel)) :
    sel ∈ db ∧ sel.status = Status.queued ∧
    (∀ q ∈ db, q.participant = sel.participant → q.forest_tree = sel.forest_tree →
        q.status = Status.queued → q.data_date_start ≤ sel.data_date_start) ∧
    db' = updateTask db (markRunning env sel) ∧
    (markRunning env sel).status = Status.running := by
  obtain ⟨hdb, hmem, hq, _, hmax⟩ := transactionSection_marked h
  exact ⟨hmem, hq, hmax, hdb, rfl⟩

/-- Witness for C2: the spec's example — three queued tasks with
`data_date_start` Jan 1, Jan 10 and Jan 5 (days 1, 10, 5); the task dated
Jan 10 is selected and marked running. -/
theorem celery_run_forest_newest_data_first_witness :
    egTask 2 5 ForestTree.jasmine 10 20 Status.queued 0 ∈
      [egTask 1 5 ForestTree.jasmine 1 20 Status.queued 0,
       egTask 2 5 ForestTree.jasmine 10 20 Status.queued 0,
       egTask 3 5 ForestTree.jasmine 5 20 Status.queued 0] ∧
    (egTask 2 5 ForestTree.jasmine 10 20 Status.queued 0).status = Status.queued ∧
    (∀ q ∈ [egTask 1 5 ForestTree.jasmine 1 20 Status.queued 0,
            egTask 2 5 ForestTree.jasmine 10 20 Status.queued 0,
            egTask 3 5 ForestTree.jasmine 5 20 Status.queued 0],
      q.participant = (egTask 2 5 ForestTree.jasmine 10 20 Status.queued 0).participant →
      q.forest_tree = (egTask 2 5 ForestTree.jasmine 10 20 Status.queued 0).forest_tree →
      q.status = Status.queued →
      q.data_date_start ≤
        (egTask 2 5 ForestTree.jasmine 10 20 Status.queued 0).data_date_start) ∧
    updateTask [egTask 1 5 ForestTree.jasmine 1 20 Status.queued 0,
        egTask 2 5 ForestTree.jasmine 10 20 Status.queued 0,
        egTask 3 5 ForestTree.jasmine 5 20 Status.queued 0]
      (markRunning egEnv (egTask 2 5 ForestTree.jasmine 10 20 Status.queued 0)) =
      updateTask [egTask 1 5 ForestTree.jasmine 1 20 Status.queued 0,
          egTask 2 5 ForestTree.jasmine 10 20 Status.queued 0,
          egTask 3 5 ForestTree.jasmine 5 20 Status.queued 0]
        (markRunning egEnv (egTask 2 5 ForestTree.jasmine 10 20 Status.queued 0)) ∧
    (markRunning egEnv (egTask 2 5 ForestTree.jasmine 10 20 Status.queued 0)).status =
      Status.running :=
  celery_run_forest_newest_data_first egEnv
    [egTask 1 5 ForestTree.jasmine 1 20 Status.queued 0,
     egTask 2 5 ForestTree.jasmine 10 20 Status.queued 0,
     egTask 3 5 ForestTree.jasmine 5 20 Status.queued 0]
    (updateTask [egTask 1 5 ForestTree.jasmine 1 20 Status.queued 0,
        egTask 2 5 ForestTree.jasmine 10 20 Status.queued 0,
        egTask 3 5 ForestTree.jasmine 5 20 Status.queued 0]
      (markRunning egEnv (egTask 2 5 ForestTree.jasmine 10 20 Status.queued 0)))
    1 (egTask 2 5 ForestTree.jasmine 10 20 Status.queued 0) (by decide)

theorem mem_updateTask {db : List ForestTask} {u t : ForestTask}
    (hu : u ∈ db) (hid : u.id = t.id) : t ∈ updateTask db t := by
  unfold updateTask
  exact List.mem_map.mpr ⟨u, hu, by rw [if_pos hid]⟩

/-- C3 (amended): an exception raised inside the `try:` block of steps 5-6
(download, parameter building, analysis, summary, artifact caching) is
caught and never propagates; the task ends in state `error` with a
non-empty stacktrace, `process_end_time` set, and its cached-artifact
fields unchanged (so none are persisted) — provided the file-size step and
the final save, which are database operations outside the `try:` block,
succeed.  (The unamended claim also covered the file-size computation of
step 5; the counterexample shows an exception there escapes instead.) -/
theorem celery_pipeline_error_containment (env : PipelineEnv) (db db1 : List ForestTask)
    (fid : Nat) (sel : ForestTask)
    (h : transactionSection env db fid = (db1, LockOutcome.marked sel))
    (hfs : env.fileSizeStepOk = true) (hsv : env.finalSaveOk = true) :
    (celery_run_forest env db fid).raised = none ∧
    ∃ t ∈ (celery_run_forest env db fid).db, t.id = sel.id ∧ t.status = Status.error ∧
      (∃ e, t.stacktrace = some e ∧ e ≠ "") ∧ t.process_end_time = some env.now3 ∧
      t.all_bv_set_bytes = sel.all_bv_set_bytes ∧
      t.all_memory_dict_bytes = sel.all_memory_dict_bytes := by
  obtain ⟨hdb1, hmem, _, _, _⟩ := transactionSection_marked h
  obtain ⟨t', hrun, hid, _, _, hstat, hstk, hpet, _, _, hbv, hmd, _⟩ :=
    celery_run_forest_marked_ok h hfs hsv
  rw [hrun]
  refine ⟨rfl, t', ?_, hid, hstat, hstk, hpet, hbv, hmd⟩
  have hm1 : markRunning env sel ∈ db1 := by
    rw [hdb1]
    exact mem_updateTask hmem rfl
  exact mem_updateTask hm1 ((markRunning_id env sel).trans hid.symm)

/-- Counterexample to C3 as stated: the file-size computation of step 5
(lines 82-84) sits outside the `try:` block, so an exception there
propagates out of the coordinator and leaves the task `running`, with no
stacktrace and no `process_end_time`. -/
theorem celery_pipeline_error_containment_cex :
    (celery_run_forest { egEnv with fileSizeStepOk := false }
        [egTask 1 5 ForestTree.jasmine 1 10 Status.queued 0] 1).raised ≠ none ∧
    ∃ t ∈ (celery_run_forest { egEnv with fileSizeStepOk := false }
        [egTask 1 5 ForestTree.jasmine 1 10 Status.queued 0] 1).db,
      t.status = Status.running ∧ t.stacktrace = none ∧ t.process_end_time = none := by
  decide

/-- Witness for C3 (amended) at a concrete input: one queued task, all
database steps succeeding. -/
theorem celery_pipeline_error_containment_witness :
    (celery_run_forest egEnv [egTask 1 5 ForestTree.jasmine 1 10 Status.queued 0] 1).raised =
      none ∧
    ∃ t ∈ (celery_run_forest egEnv [egTask 1 5 ForestTree.jasmine 1 10 Status.queued 0] 1).db,
      t.id = (egTask 1 5 ForestTree.jasmine 1 10 Status.queued 0).id ∧
      t.status = Status.error ∧
      (∃ e, t.stacktrace = some e ∧ e ≠ "") ∧ t.process_end_time = some egEnv.now3 ∧
      t.all_bv_set_bytes = (egTask 1 5 ForestTree.jasmine 1 10 Status.queued 0).all_bv_set_bytes ∧
      t.all_memory_dict_bytes =
        (egTask 1 5 ForestTree.jasmine 1 10 Status.queued 0).all_memory_dict_bytes :=
  celery_pipeline_error_containment egEnv
    [egTask 1 5 ForestTree.jasmine 1 10 Status.queued 0]
    (updateTask [egTask 1 5 ForestTree.jasmine 1 10 Status.queued 0]
      (markRunning egEnv (egTask 1 5 ForestTree.jasmine 1 10 Status.queued 0)))
    1 (egTask 1 5 ForestTree.jasmine 1 10 Status.queued 0) (by decide) rfl rfl

/-- C4 (code bug): evaluating the coordinator at an input on which every
external step succeeds — the download materializes, the analysis function
and summary builder report no failure — the run still ends with the task in
state `error` and the `TypeError` stacktrace of the misspelled
`save(update_field=...)` call (lines 89/93; Django's `Model.save` only
accepts `update_fields`), with no cached artifacts; the `success` branch is
unreachable, contradicting the success path the specification describes and
the correctly spelled saves on lines 79/84 evidently intend. -/
theorem celery_pipeline_update_field_bug :
    (celery_run_forest egEnv [egTask 1 5 ForestTree.jasmine 1 10 Status.queued 0] 1).raised =
      none ∧
    ∃ t ∈ (celery_run_forest egEnv [egTask 1 5 ForestTree.jasmine 1 10 Status.queued 0] 1).db,
      t.status = Status.error ∧
      t.stacktrace =
        some "TypeError: save() got an unexpected keyword argument: update_field" ∧
      t.process_download_end_time = some egEnv.now2 ∧
      t.all_bv_set_bytes = none ∧ t.all_memory_dict_bytes = none := by
  decide

/-- C5 (amended): a run that reached the mark-running step deletes the
local workspace when it also completes the file-size step and the final
save — the success and caught-pipeline-error paths.  (The unamended claim
also promised cleanup when an exception escapes a later step; the
counterexample shows the missing `finally` skips cleanup there.) -/
theorem celery_cleanup_on_completion (env : PipelineEnv) (db db1 : List ForestTask)
    (fid : Nat) (sel : ForestTask)
    (h : transactionSection env db fid = (db1, LockOutcome.marked sel))
    (hfs : env.fileSizeStepOk = true) (hsv : env.finalSaveOk = true) :
    (celery_run_forest env db fid).cleaned = true ∧
    (celery_run_forest env db fid).raised = none := by
  obtain ⟨t', hrun, _⟩ := celery_run_forest_marked_ok h hfs hsv
  rw [hrun]
  exact ⟨rfl, rfl⟩

/-- Counterexample to C5 as stated: the run marks the task running (it is
`running` in the final database), then the final save raises; there is no
`finally`, so `clean_up_files()` is never reached on this exit path. -/
theorem celery_cleanup_on_completion_cex :
    (∃ t ∈ (celery_run_forest { egEnv with finalSaveOk := false }
        [egTask 1 5 ForestTree.jasmine 1 10 Status.queued 0] 1).db,
      t.status = Status.running) ∧
    (celery_run_forest { egEnv with finalSaveOk := false }
        [egTask 1 5 ForestTree.jasmine 1 10 Status.queued 0] 1).cleaned = false ∧
    (celery_run_forest { egEnv with finalSaveOk := false }
        [egTask 1 5 ForestTree.jasmine 1 10 Status.queued 0] 1).raised ≠ none := by
  decide

/-- Witness for C5 (amended) at a concrete input. -/
theorem celery_cleanup_on_completion_witness :
    (celery_run_forest egEnv [egTask 1 5 ForestTree.jasmine 1 10 Status.queued 0] 1).cleaned =
      true ∧
    (celery_run_forest egEnv [egTask 1 5 ForestTree.jasmine 1 10 Status.queued 0] 1).raised =
      none :=
  celery_cleanup_on_completion egEnv
    [egTask 1 5 ForestTree.jasmine 1 10 Status.queued 0]
    (updateTask [egTask 1 5 ForestTree.jasmine 1 10 Status.queued 0]
      (markRunning egEnv (egTask 1 5 ForestTree.jasmine 1 10 Status.queued 0)))
    1 (egTask 1 5 ForestTree.jasmine 1 10 Status.queued 0) (by decide) rfl rfl

/-- C7 (amended): if the candidate task row exists but has already been
consumed — no sibling is running and no queued sibling remains when the
lock is taken — the run is a silent no-op: it returns without raising and
without mutating any task.  If the task id is NOT found, however, the run
is not silent: `ForestTask.objects.filter(id=...).first()` yields `None`
and the attribute access `tracker.participant` raises `AttributeError`
(still without mutating any task).  (The unamended claim promised a silent
no-op in the not-found case too; the counterexample refutes that.) -/
theorem celery_run_forest_consumed_noop (env : PipelineEnv) (db : List ForestTask)
    (fid : Nat) :
    (db.find? (isTask fid) = none →
      celery_run_forest env db fid =
        { db := db, dispatched := [], cleaned := false
          raised := some "AttributeError: NoneType object has no attribute participant" }) ∧
    (∀ t0, db.find? (isTask fid) = some t0 →
      (db.filter (siblingOf t0)).any isRunningB = false →
      selectLatestQueued (db.filter (siblingOf t0)) = none →
      celery_run_forest env db fid =
        { db := db, dispatched := [], cleaned := false, raised := none }) := by
  constructor
  · intro hf
    exact celery_run_forest_notFound (transactionSection_notFound_eq hf)
  · intro t0 hf hrun hsel
    exact celery_run_forest_noQueued (transactionSection_noQueued_eq hf hrun hsel)

/-- Counterexample to C7 as stated: dispatch an id whose task row does not
exist — the coordinator raises instead of silently returning. -/
theorem celery_run_forest_consumed_noop_cex :
    (celery_run_forest egEnv [] 1).raised ≠ none := by
  decide

/-- Witness for C7 (amended): the not-found case on an empty database, and
the already-consumed case on a database holding only a cancelled task. -/
theorem celery_run_forest_consumed_noop_witness :
    celery_run_forest egEnv [] 2 =
      { db := [], dispatched := [], cleaned := false
        raised := some "AttributeError: NoneType object has no attribute participant" } ∧
    celery_run_forest egEnv [egTask 1 5 ForestTree.jasmine 1 10 Status.cancelled 0] 1 =
      { db := [egTask 1 5 ForestTree.jasmine 1 10 Status.cancelled 0]
        dispatched := [], cleaned := false, raised := none } :=
  ⟨(celery_run_forest_consumed_noop egEnv [] 2).1 rfl,
   (celery_run_forest_consumed_noop egEnv
      [egTask 1 5 ForestTree.jasmine 1 10 Status.cancelled 0] 1).2
     (egTask 1 5 ForestTree.jasmine 1 10 Status.cancelled 0) (by decide) (by decide)
     (by decide)⟩

theorem map_id_of_eq {l : List ForestTask} {f : ForestTask → ForestTask}
    (h : ∀ t ∈ l, f t = t) : l.map f = l := by
  induction l with
  | nil => rfl
  | cons u us ih =>
      simp only [List.map_cons, h u (by simp), List.cons.injEq, true_and]
      exact ih (fun v hv => h v (by simp [hv]))

/-- The queryset `update` of the cancel path touches nothing when no row
matches `external_id=eid, status=QUEUED`, and reports zero rows updated. -/
theorem cancel_noop_of_no_queued {db : List ForestTask} {eid : Nat} {u d : String}
    (h : ∀ t ∈ db, t.external_id = eid → t.status ≠ Status.queued) :
    cancel_forest_task db eid u d = (db, false) := by
  unfold cancel_forest_task
  have hmap : db.map (fun t =>
      if t.external_id = eid ∧ t.status = Status.queued then
        { t with status := Status.cancelled
                 stacktrace := some ("Canceled by " ++ u ++ " on " ++ d) }
      else t) = db := by
    apply map_id_of_eq
    intro t ht
    rw [if_neg]
    rintro ⟨he, hs⟩
    exact h t ht he hs
  have hcount : db.countP
      (fun t => decide (t.external_id = eid ∧ t.status = Status.queued)) = 0 := by
    apply countP_eq_zero_of_all
    intro t ht
    simp only [decide_eq_false_iff_not]
    rintro ⟨he, hs⟩
    exact h t ht he hs
  simp only [hmap, hcount, Prod.mk.injEq, decide_eq_false_iff_not]
  exact ⟨trivial, by omega⟩

/-- After one cancel call, no row with the given external id is `queued`
(matched rows became `cancelled`, others kept their non-queued status). -/
theorem cancel_no_queued_after {db : List ForestTask} {eid : Nat} {u d : String} :
    ∀ t ∈ (cancel_forest_task db eid u d).1, t.external_id = eid →
      t.status ≠ Status.queued := by
  intro t ht he
  unfold cancel_forest_task at ht
  simp only [List.mem_map] at ht
  obtain ⟨t0, ht0, heq⟩ := ht
  by_cases hc : t0.external_id = eid ∧ t0.status = Status.queued
  · rw [if_pos hc] at heq
    rw [← heq]
    intro hq
    cases hq
  · rw [if_neg hc] at heq
    rw [← heq] at he ⊢
    intro hq
    exact hc ⟨he, hq⟩

/-- C6: cancellation transitions a task from `queued` to `cancelled` only,
recording an audit note naming the acting researcher and the date; rows are
touched only when they match the external id AND are queued (first two
conjuncts); when every row with the external id is in another state the
request reports failure and changes nothing (third conjunct); when a queued
row matches, the request reports success (fourth conjunct); and a second
cancel of the same task always fails and changes nothing (fifth
conjunct). -/
theorem cancel_forest_task_spec (db : List ForestTask) (eid : Nat) (u d u2 d2 : String) :
    (cancel_forest_task db eid u d).1.length = db.length ∧
    (∀ i (hi : i < db.length) (hi2 : i < (cancel_forest_task db eid u d).1.length),
      (cancel_forest_task db eid u d).1.get ⟨i, hi2⟩ = db.get ⟨i, hi⟩ ∨
      ((db.get ⟨i, hi⟩).external_id = eid ∧ (db.get ⟨i, hi⟩).status = Status.queued ∧
        (cancel_forest_task db eid u d).1.get ⟨i, hi2⟩ =
          { db.get ⟨i, hi⟩ with
              status := Status.cancelled
              stacktrace := some ("Canceled by " ++ u ++ " on " ++ d) })) ∧
    ((∀ t ∈ db, t.external_id = eid → t.status ≠ Status.queued) →
      cancel_forest_task db eid u d = (db, false)) ∧
    ((∃ t ∈ db, t.external_id = eid ∧ t.status = Status.queued) →
      (cancel_forest_task db eid u d).2 = true) ∧
    cancel_forest_task (cancel_forest_task db eid u d).1 eid u2 d2 =
      ((cancel_forest_task db eid u d).1, false) := by
  refine ⟨?_, ?_, ?_, ?_, ?_⟩
  · unfold cancel_forest_task
    simp
  · intro i hi hi2
    unfold cancel_forest_task
    simp only [List.get_eq_getElem, List.getElem_map]
    by_cases hc : (db.get ⟨i, hi⟩).external_id = eid ∧
        (db.get ⟨i, hi⟩).status = Status.queued
    · right
      refine ⟨hc.1, hc.2, ?_⟩
      simp only [List.get_eq_getElem] at hc ⊢
      rw [if_pos hc]
    · left
      simp only [List.get_eq_getElem] at hc ⊢
      rw [if_neg hc]
  · exact cancel_noop_of_no_queued
  · rintro ⟨t, ht, he, hs⟩
    unfold cancel_forest_task
    simp only [decide_eq_true_eq]
    have : 0 < db.countP (fun t => decide (t.external_id = eid ∧ t.status = Status.queued)) := by
      rw [List.countP_pos_iff]
      exact ⟨t, ht, by simp [he, hs]⟩
    omega
  · exact cancel_noop_of_no_queued cancel_no_queued_after

/-- Witness for C6 at concrete inputs: cancelling a queued task reports
success; cancelling a running task reports failure and changes nothing; a
second cancel of an already-cancelled task fails and changes nothing. -/
theorem cancel_forest_task_spec_witness :
    (cancel_forest_task [egTask 1 1 ForestTree.jasmine 1 2 Status.queued 0]
      1 "alice" "2021-02-05").2 = true ∧
    cancel_forest_task [egTask 2 2 ForestTree.willow 1 2 Status.running 0]
      2 "alice" "2021-02-05" =
      ([egTask 2 2 ForestTree.willow 1 2 Status.running 0], false) ∧
    cancel_forest_task
        (cancel_forest_task [egTask 1 1 ForestTree.jasmine 1 2 Status.queued 0]
          1 "alice" "2021-02-05").1 1 "bob" "2021-02-06" =
      ((cancel_forest_task [egTask 1 1 ForestTree.jasmine 1 2 Status.queued 0]
          1 "alice" "2021-02-05").1, false) :=
  ⟨(cancel_forest_task_spec [egTask 1 1 ForestTree.jasmine 1 2 Status.queued 0]
      1 "alice" "2021-02-05" "x" "y").2.2.2.1
      ⟨egTask 1 1 ForestTree.jasmine 1 2 Status.queued 0, by decide, rfl, rfl⟩,
   (cancel_forest_task_spec [egTask 2 2 ForestTree.willow 1 2 Status.running 0]
      2 "alice" "2021-02-05" "x" "y").2.2.1 (by decide),
   (cancel_forest_task_spec [egTask 1 1 ForestTree.jasmine 1 2 Status.queued 0]
      1 "alice" "2021-02-05" "bob" "2021-02-06").2.2.2.2⟩

theorem expiryInstant_bounds (now : Nat) :
    now < expiryInstant now ∧ expiryInstant now ≤ now + 330 := by
  unfold expiryInstant
  have h := Nat.div_add_mod (now + 300) 60
  have h2 : (now + 300) % 60 < 60 := Nat.mod_lt _ (by omega)
  omega

theorem countP_id_eq_one {l : List ForestTask} {t : ForestTask}
    (hnd : (l.map ForestTask.id).Nodup) (ht : t ∈ l) :
    l.countP (fun u => decide (u.id = t.id)) = 1 := by
  induction l with
  | nil => simp at ht
  | cons u us ih =>
      simp only [List.map_cons, List.nodup_cons] at hnd
      rcases List.mem_cons.mp ht with rfl | hts
      · simp only [List.countP_cons, decide_eq_true_eq]
        have h0 : us.countP (fun v => decide (v.id = t.id)) = 0 := by
          apply countP_eq_zero_of_all
          intro v hv
          simp only [decide_eq_false_iff_not]
          intro hvt
          exact hnd.1 (hvt ▸ List.mem_map_of_mem ForestTask.id hv)
        simp [h0]
      · have hne : u.id ≠ t.id := by
          intro he
          exact hnd.1 (he ▸ List.mem_map_of_mem ForestTask.id hts)
        simp only [List.countP_cons, decide_eq_true_eq, hne, if_false]
        simpa using ih hnd.2 hts

/-- C9: every dispatch — each submission of the admission scan and the
conflict-driven requeue of the coordinator — is tagged with an expiry
strictly in the future and at most five and a half minutes away, and with
zero retries (`max_retries=0`, `retry=False`); and the admission scan
submits each queued task's id exactly once per scan. -/
theorem dispatch_expiry_and_exactly_once (now : Nat) (db : List ForestTask)
    (env : PipelineEnv) (fid : Nat) :
    (∀ r ∈ create_forest_celery_tasks now db,
      r.max_retries = 0 ∧ r.retry = false ∧ now < r.expires ∧ r.expires ≤ now + 330) ∧
    ((db.map ForestTask.id).Nodup → ∀ t ∈ db, t.status = Status.queued →
      ((create_forest_celery_tasks now db).filter
        (fun r => decide (r.args = [t.id]))).length = 1) ∧
    (∀ r ∈ (celery_run_forest env db fid).dispatched,
      r.max_retries = 0 ∧ r.retry = false ∧ env.now0 < r.expires ∧
        r.expires ≤ env.now0 + 330) := by
  refine ⟨?_, ?_, ?_⟩
  · intro r hr
    unfold create_forest_celery_tasks at hr
    obtain ⟨t, _, rfl⟩ := List.mem_map.mp hr
    exact ⟨rfl, rfl, (expiryInstant_bounds now).1, (expiryInstant_bounds now).2⟩
  · intro hnd t ht hq
    unfold create_forest_celery_tasks
    rw [← List.countP_eq_length_filter, List.countP_map]
    have hmem : t ∈ db.filter (fun t => decide (t.status = Status.queued)) :=
      List.mem_filter.mpr ⟨ht, by simp [hq]⟩
    have hnd2 : ((db.filter (fun t => decide (t.status = Status.queued))).map
        ForestTask.id).Nodup :=
      hnd.sublist (List.Sublist.map ForestTask.id (List.filter_sublist db))
    have := countP_id_eq_one hnd2 hmem
    rw [← this]
    apply List.countP_congr
    intro u _
    simp [enqueue_forest_task, Function.comp]
  · intro r hr
    rcases hts : transactionSection env db fid with ⟨db1, out⟩
    cases out with
    | notFound => rw [celery_run_forest_notFound hts] at hr; simp at hr
    | conflict cid =>
        rw [celery_run_forest_conflict hts] at hr
        simp only [List.mem_singleton] at hr
        subst hr
        exact ⟨rfl, rfl, (expiryInstant_bounds env.now0).1, (expiryInstant_bounds env.now0).2⟩
    | noQueued => rw [celery_run_forest_noQueued hts] at hr; simp at hr
    | marked sel =>
        cases hfs : env.fileSizeStepOk with
        | false => rw [celery_run_forest_marked_nofs hts hfs] at hr; simp at hr
        | true =>
            cases hsv : env.finalSaveOk with
            | false => rw [celery_run_forest_marked_nosave hts hfs hsv] at hr; simp at hr
            | true =>
                obtain ⟨t', hrun, _⟩ := celery_run_forest_marked_ok hts hfs hsv
                rw [hrun] at hr
                simp at hr

/-- Witness for C9 at a concrete input: a scan over one queued and one
running task dispatches the queued task exactly once with the expiry and
zero-retry options, and a conflicted coordinator run re-dispatches with
the same options. -/
theorem dispatch_expiry_and_exactly_once_witness :
    (∀ r ∈ create_forest_celery_tasks 1000
        [egTask 1 5 ForestTree.jasmine 1 10 Status.queued 0,
         egTask 2 5 ForestTree.jasmine 1 10 Status.running 0],
      r.max_retries = 0 ∧ r.retry = false ∧ 1000 < r.expires ∧ r.expires ≤ 1000 + 330) ∧
    ((create_forest_celery_tasks 1000
        [egTask 1 5 ForestTree.jasmine 1 10 Status.queued 0,
         egTask 2 5 ForestTree.jasmine 1 10 Status.running 0]).filter
      (fun r => decide (r.args = [1]))).length = 1 ∧
    (∀ r ∈ (celery_run_forest egEnv
        [egTask 2 5 ForestTree.jasmine 1 10 Status.running 0] 2).dispatched,
      r.max_retries = 0 ∧ r.retry = false ∧ egEnv.now0 < r.expires ∧
        r.expires ≤ egEnv.now0 + 330) := by
  have H := dispatch_expiry_and_exactly_once 1000
    [egTask 1 5 ForestTree.jasmine 1 10 Status.queued 0,
     egTask 2 5 ForestTree.jasmine 1 10 Status.running 0] egEnv 1
  have H2 := dispatch_expiry_and_exactly_once egEnv.now0
    [egTask 2 5 ForestTree.jasmine 1 10 Status.running 0] egEnv 2
  exact ⟨H.1,
    H.2.1 (by decide) (egTask 1 5 ForestTree.jasmine 1 10 Status.queued 0) (by decide) rfl,
    H2.2.2⟩

theorem create_local_data_files_ok_spec {env : PipelineEnv} {tk : ForestTask} :
    ∀ {chunks : List Chunk} {fs fs' : List String},
    create_local_data_files env tk fs chunks = Except.ok fs' →
    fs.Nodup → fs'.Nodup ∧ fs ⊆ fs' := by
  intro chunks
  induction chunks with
  | nil =>
      intro fs fs' h hnd
      unfold create_local_data_files at h
      simp only [Except.ok.injEq] at h
      subst h
      exact ⟨hnd, fun _ hx => hx⟩
  | cons c rest ih =>
      intro fs fs' h hnd
      unfold create_local_data_files at h
      cases hs : env.s3content c with
      | none => rw [hs] at h; simp at h
      | some s =>
          rw [hs] at h
          by_cases hmem : tk.data_input_path ++ "/" ++ env.dfn c ∈ fs
          · rw [if_pos hmem] at h; simp at h
          · rw [if_neg hmem] at h
            obtain ⟨hnd', hsub⟩ := ih h (List.nodup_cons.mpr ⟨hmem, hnd⟩)
            exact ⟨hnd', fun x hx => hsub (List.mem_cons_of_mem _ hx)⟩

theorem create_local_data_files_target_exists_error {env : PipelineEnv} {tk : ForestTask} :
    ∀ {chunks : List Chunk} {fs : List String},
    (∃ c ∈ chunks, tk.data_input_path ++ "/" ++ env.dfn c ∈ fs) →
    ∀ fs', create_local_data_files env tk fs chunks ≠ Except.ok fs' := by
  intro chunks
  induction chunks with
  | nil =>
      rintro fs ⟨c, hc, _⟩
      simp at hc
  | cons c rest ih =>
      rintro fs ⟨c', hc', hname⟩ fs' h
      unfold create_local_data_files at h
      cases hs : env.s3content c with
      | none => rw [hs] at h; simp at h
      | some s =>
          rw [hs] at h
          by_cases hmem : tk.data_input_path ++ "/" ++ env.dfn c ∈ fs
          · rw [if_pos hmem] at h; simp at h
          · rw [if_neg hmem] at h
            rcases List.mem_cons.mp hc' with rfl | hrest
            · exact hmem hname
            · exact ih ⟨c', hrest, List.mem_cons_of_mem _ hname⟩ fs' h

/-- C10: `create_local_data_files` opens every local data file with mode
`"x"` (exclusive create).  First conjunct: a successful run never
overwrites — given distinct pre-existing names, the resulting set of names
is still duplicate-free and the pre-existing files are all untouched
members.  Second conjunct: when any chunk's target file name already
exists in the scratch directory, materialization raises instead of
returning.  Third conjunct: a coordinator run whose transaction marked a
task and whose database steps succeed ends that task in state `error`
with its cached-artifact fields unchanged — never silently overwriting
local data. -/
theorem create_local_data_files_exclusive_create (env : PipelineEnv) (tk : ForestTask)
    (fs0 : List String) (chunks : List Chunk) (db db1 : List ForestTask) (fid : Nat)
    (sel : ForestTask) :
    (∀ fs', create_local_data_files env tk fs0 chunks = Except.ok fs' → fs0.Nodup →
      fs'.Nodup ∧ fs0 ⊆ fs') ∧
    ((∃ c ∈ chunks, tk.data_input_path ++ "/" ++ env.dfn c ∈ fs0) →
      ∀ fs', create_local_data_files env tk fs0 chunks ≠ Except.ok fs') ∧
    (transactionSection env db fid = (db1, LockOutcome.marked sel) →
      env.fileSizeStepOk = true → env.finalSaveOk = true →
      ∃ t ∈ (celery_run_forest env db fid).db, t.id = sel.id ∧
        t.status = Status.error ∧ t.all_bv_set_bytes = sel.all_bv_set_bytes ∧
        t.all_memory_dict_bytes = sel.all_memory_dict_bytes) := by
  refine ⟨fun fs' h hnd => create_local_data_files_ok_spec h hnd,
    fun hex fs' => create_local_data_files_target_exists_error hex fs', ?_⟩
  intro h hfs hsv
  obtain ⟨hdb1, hmem, _, _, _⟩ := transactionSection_marked h
  obtain ⟨t', hrun, hid, _, _, hstat, _, _, _, _, hbv, hmd, _⟩ :=
    celery_run_forest_marked_ok h hfs hsv
  rw [hrun]
  refine ⟨t', ?_, hid, hstat, hbv, hmd⟩
  have hm1 : markRunning env sel ∈ db1 := by
    rw [hdb1]
    exact mem_updateTask hmem rfl
  exact mem_updateTask hm1 ((markRunning_id env sel).trans hid.symm)

/-- Witness for C10 at concrete inputs: a chunk whose target name is a
leftover in the scratch directory makes materialization fail; the same
chunk against an empty directory succeeds without duplicates; and the
coordinator run ends the task in `error` with no artifacts. -/
theorem create_local_data_files_exclusive_create_witness :
    create_local_data_files
        { egEnv with
            chunks := [{ participant := 5, study_object_id := "s", chunk_path := "a.csv",
                         file_size := 10, time_bin := 3 }]
            fs0 := ["forest_workspace/1/a.csv"] }
        (egTask 1 5 ForestTree.jasmine 1 10 Status.queued 0)
        ["forest_workspace/1/a.csv"]
        [{ participant := 5, study_object_id := "s", chunk_path := "a.csv",
           file_size := 10, time_bin := 3 }] ≠ Except.ok [] ∧
    (["forest_workspace/1/a.csv"] : List String).Nodup ∧
      ([] : List String) ⊆ ["forest_workspace/1/a.csv"] ∧
    ∃ t ∈ (celery_run_forest
        { egEnv with
            chunks := [{ participant := 5, study_object_id := "s", chunk_path := "a.csv",
                         file_size := 10, time_bin := 3 }]
            fs0 := ["forest_workspace/1/a.csv"] }
        [egTask 1 5 ForestTree.jasmine 1 10 Status.queued 0] 1).db,
      t.id = (egTask 1 5 ForestTree.jasmine 1 10 Status.queued 0).id ∧
      t.status = Status.error ∧
      t.all_bv_set_bytes = (egTask 1 5 ForestTree.jasmine 1 10 Status.queued 0).all_bv_set_bytes ∧
      t.all_memory_dict_bytes =
        (egTask 1 5 ForestTree.jasmine 1 10 Status.queued 0).all_memory_dict_bytes := by
  have H := create_local_data_files_exclusive_create
    { egEnv with
        chunks := [{ participant := 5, study_object_id := "s", chunk_path := "a.csv",
                     file_size := 10, time_bin := 3 }]
        fs0 := ["forest_workspace/1/a.csv"] }
    (egTask 1 5 ForestTree.jasmine 1 10 Status.queued 0)
    ["forest_workspace/1/a.csv"]
    [{ participant := 5, study_object_id := "s", chunk_path := "a.csv",
       file_size := 10, time_bin := 3 }]
    [egTask 1 5 ForestTree.jasmine 1 10 Status.queued 0]
    (updateTask [egTask 1 5 ForestTree.jasmine 1 10 Status.queued 0]
      (markRunning
        { egEnv with
            chunks := [{ participant := 5, study_object_id := "s", chunk_path := "a.csv",
                         file_size := 10, time_bin := 3 }]
            fs0 := ["forest_workspace/1/a.csv"] }
        (egTask 1 5 ForestTree.jasmine 1 10 Status.queued 0)))
    1 (egTask 1 5 ForestTree.jasmine 1 10 Status.queued 0)
  have H2 := create_local_data_files_exclusive_create
    { egEnv with
        chunks := [{ participant := 5, study_object_id := "s", chunk_path := "a.csv",
                     file_size := 10, time_bin := 3 }]
        fs0 := ["forest_workspace/1/a.csv"] }
    (egTask 1 5 ForestTree.jasmine 1 10 Status.queued 0)
    []
    [{ participant := 5, study_object_id := "s", chunk_path := "a.csv",
       file_size := 10, time_bin := 3 }]
    [] (updateTask [] (markRunning egEnv (egTask 1 5 ForestTree.jasmine 1 10 Status.queued 0)))
    1 (egTask 1 5 ForestTree.jasmine 1 10 Status.queued 0)
  refine ⟨H.2.1 (by decide) [], ?_, ?_, ?_⟩
  · exact (H2.1 ["forest_workspace/1/a.csv"] rfl (by decide)).1
  · exact (H2.1 ["forest_workspace/1/a.csv"] rfl (by decide)).2
  · exact H.2.2 (by decide) rfl rfl

theorem mem_daterange {a b d : Int} : d ∈ daterange a b ↔ a ≤ d ∧ d ≤ b := by
  unfold daterange
  constructor
  · intro h
    obtain ⟨n, hn, he⟩ := List.mem_map.mp h
    rw [List.mem_range] at hn
    omega
  · rintro ⟨h1, h2⟩
    apply List.mem_map.mpr
    refine ⟨(d - a).toNat, ?_, by omega⟩
    rw [List.mem_range]
    omega

theorem foldl_applyTracker_eval (p : Nat) (tr : ForestTree) (d : Int) :
    ∀ (s : List ForestTask) (acc : Nat → ForestTree → Int → String),
    (s.foldl applyTracker acc) p tr d =
      match s.reverse.find? (coverPred p tr d) with
      | some t => statusName t.status
      | none => acc p tr d := by
  intro s
  induction s with
  | nil => intro acc; rfl
  | cons t s' ih =>
      intro acc
      simp only [List.foldl_cons, List.reverse_cons, List.find?_append]
      rw [ih]
      cases hf : s'.reverse.find? (coverPred p tr d) with
      | some u => rfl
      | none =>
          simp only [Option.none_or]
          unfold applyTracker
          by_cases hc : p = t.participant ∧ tr = t.forest_tree ∧
              d ∈ daterange t.data_date_start t.data_date_end
          · rw [if_pos hc]
            rw [List.find?_cons_of_pos _
              (show coverPred p tr d t = true from decide_eq_true hc)]
          · rw [if_neg hc]
            rw [List.find?_cons_of_neg _
              (show ¬coverPred p tr d t = true by simpa [coverPred] using hc),
              List.find?_nil]

theorem sorted_reverse_find_spec {pred : ForestTask → Bool} :
    ∀ {s : List ForestTask}, List.Sorted createdLE s →
    (∀ m, s.reverse.find? pred = some m → pred m = true ∧ m ∈ s ∧
      ∀ x ∈ s, pred x = true → x.created_on ≤ m.created_on) ∧
    (s.reverse.find? pred = none → ∀ x ∈ s, pred x = false) := by
  intro s
  induction s with
  | nil =>
      intro _
      exact ⟨fun m h => by simp at h, fun _ x hx => by simp at hx⟩
  | cons t s' ih =>
      intro hs
      obtain ⟨hts', hs'⟩ := List.sorted_cons.mp hs
      obtain ⟨ih1, ih2⟩ := ih hs'
      constructor
      · intro m hm
        rw [List.reverse_cons, List.find?_append] at hm
        cases hf : s'.reverse.find? pred with
        | some u =>
            rw [hf] at hm
            simp only [Option.or_some, Option.some.injEq] at hm
            rw [← hm]
            obtain ⟨hpu, hmem, hmax⟩ := ih1 u hf
            refine ⟨hpu, List.mem_cons_of_mem _ hmem, ?_⟩
            intro x hx hpx
            rcases List.mem_cons.mp hx with rfl | hx'
            · exact hts' u hmem
            · exact hmax x hx' hpx
        | none =>
            rw [hf] at hm
            simp only [Option.none_or] at hm
            by_cases hpt : pred t = true
            · rw [List.find?_cons_of_pos _ hpt, Option.some.injEq] at hm
              rw [← hm]
              refine ⟨hpt, List.mem_cons_self _ _, ?_⟩
              intro x hx hpx
              rcases List.mem_cons.mp hx with rfl | hx'
              · exact Nat.le_refl _
              · exact absurd hpx (by simp [ih2 hf x hx'])
            · rw [List.find?_cons_of_neg _ (by simpa using hpt), List.find?_nil] at hm
              cases hm
      · intro hn x hx
        rw [List.reverse_cons, List.find?_append] at hn
        cases hf : s'.reverse.find? pred with
        | some u => rw [hf] at hn; simp at hn
        | none =>
            rw [hf] at hn
            simp only [Option.none_or] at hn
            rcases List.mem_cons.mp hx with rfl | hx'
            · by_contra hc
              rw [List.find?_cons_of_pos _ (by simpa using hc)] at hn
              cases hn
            · exact ih2 hf x hx'

theorem foldl_created_ge (ts : List ForestTask) (a : ForestTask) :
    a.created_on ≤
      (ts.foldl (fun a b => if a.created_on < b.created_on then b else a) a).created_on ∧
    ∀ x ∈ ts, x.created_on ≤
      (ts.foldl (fun a b => if a.created_on < b.created_on then b else a) a).created_on := by
  induction ts generalizing a with
  | nil => simp
  | cons u us ih =>
      simp only [List.foldl_cons, List.mem_cons]
      have step : a.created_on ≤
            (if a.created_on < u.created_on then u else a).created_on ∧
          u.created_on ≤ (if a.created_on < u.created_on then u else a).created_on := by
        by_cases hc : a.created_on < u.created_on
        · rw [if_pos hc]; exact ⟨Nat.le_of_lt hc, Nat.le_refl _⟩
        · rw [if_neg hc]; exact ⟨Nat.le_refl _, Nat.le_of_not_lt hc⟩
      obtain ⟨h1, h2⟩ := ih (if a.created_on < u.created_on then u else a)
      refine ⟨Nat.le_trans step.1 h1, ?_⟩
      rintro x (rfl | hx)
      · exact Nat.le_trans step.2 h1
      · exact h2 x hx

theorem pickMaxCreated_mem {l : List ForestTask} {m : ForestTask}
    (h : pickMaxCreated l = some m) : m ∈ l := by
  match l with
  | [] => simp [pickMaxCreated] at h
  | t :: ts =>
      simp only [pickMaxCreated, Option.some.injEq] at h
      subst h
      have hch : ∀ (a b : ForestTask),
          (if a.created_on < b.created_on then b else a) = a ∨
          (if a.created_on < b.created_on then b else a) = b := by
        intro a b
        by_cases hc : a.created_on < b.created_on <;> simp [hc]
      rcases foldl_choice_mem hch ts t with h | h
      · rw [h]; simp
      · simp [h]

theorem pickMaxCreated_max {l : List ForestTask} {m : ForestTask}
    (h : pickMaxCreated l = some m) : ∀ x ∈ l, x.created_on ≤ m.created_on := by
  match l with
  | [] => simp [pickMaxCreated] at h
  | t :: ts =>
      simp only [pickMaxCreated, Option.some.injEq] at h
      subst h
      obtain ⟨h1, h2⟩ := foldl_created_ge ts t
      intro x hx
      rcases List.mem_cons.mp hx with hx1 | hx2
      · rw [hx1]; exact h1
      · exact h2 x hx2

/-- The Boolean chart condition agrees with the spec-side covering
predicate. -/
theorem coverPred_eq_coversPred (p : Nat) (tr : ForestTree) (d : Int) (t : ForestTask) :
    coverPred p tr d t =
      decide (t.participant = p ∧ t.forest_tree = tr ∧ covers t d) := by
  unfold coverPred covers
  by_cases h : p = t.participant ∧ tr = t.forest_tree ∧
      d ∈ daterange t.data_date_start t.data_date_end
  · rw [decide_eq_true h,
      decide_eq_true ⟨h.1.symm, h.2.1.symm, (mem_daterange.mp h.2.2).1,
        (mem_daterange.mp h.2.2).2⟩]
  · rw [decide_eq_false h, decide_eq_false]
    rintro ⟨h1, h2, h3⟩
    exact h ⟨h1.symm, h2.symm, mem_daterange.mpr h3⟩

theorem pickMaxCreated_eq_none {l : List ForestTask}
    (h : pickMaxCreated l = none) : l = [] := by
  cases l with
  | nil => rfl
  | cons a l' => simp [pickMaxCreated] at h

/-- The chart cell computed by the code (sort by `created_on`, then
overwrite in order) equals the spec-side description: the status of the
most recent covering task, or the sentinel. -/
theorem resultsFun_eq_mostRecent (trackers : List ForestTask)
    (hnd : (trackers.map ForestTask.created_on).Nodup)
    (p : Nat) (tr : ForestTree) (d : Int) :
    resultsFun trackers p tr d = mostRecentCoveringStatus trackers p tr d := by
  unfold resultsFun mostRecentCoveringStatus
  rw [foldl_applyTracker_eval]
  have hperm : List.Perm (trackers.insertionSort createdLE) trackers :=
    List.perm_insertionSort createdLE trackers
  have hsorted : List.Sorted createdLE (trackers.insertionSort createdLE) :=
    List.sorted_insertionSort createdLE trackers
  obtain ⟨hfind_some, hfind_none⟩ :=
    @sorted_reverse_find_spec (coverPred p tr d) _ hsorted
  cases hf : (trackers.insertionSort createdLE).reverse.find? (coverPred p tr d) with
  | none =>
      have hfilter : trackers.filter
          (fun t => decide (t.participant = p ∧ t.forest_tree = tr ∧ covers t d)) = [] := by
        rw [List.filter_eq_nil_iff]
        intro x hx
        have hx2 := hfind_none hf x (hperm.mem_iff.mpr hx)
        rw [coverPred_eq_coversPred] at hx2
        simp [hx2]
      rw [hfilter]
      rfl
  | some m =>
      obtain ⟨hpm, hmems, hmax⟩ := hfind_some m hf
      have hmem : m ∈ trackers := hperm.mem_iff.mp hmems
      have hmf : m ∈ trackers.filter
          (fun t => decide (t.participant = p ∧ t.forest_tree = tr ∧ covers t d)) := by
        rw [List.mem_filter]
        refine ⟨hmem, ?_⟩
        rw [← coverPred_eq_coversPred]
        exact hpm
      cases hpk : pickMaxCreated (trackers.filter
          (fun t => decide (t.participant = p ∧ t.forest_tree = tr ∧ covers t d))) with
      | none =>
          rw [pickMaxCreated_eq_none hpk] at hmf
          simp at hmf
      | some m2 =>
          have hm2mem := pickMaxCreated_mem hpk
          have hm2max := pickMaxCreated_max hpk
          rw [List.mem_filter] at hm2mem
          have h1 : m.created_on ≤ m2.created_on := hm2max m hmf
          have h2 : m2.created_on ≤ m.created_on := by
            apply hmax m2 (hperm.mem_iff.mpr hm2mem.1)
            rw [coverPred_eq_coversPred]
            exact hm2mem.2
          rw [List.inj_on_of_nodup_map hnd hmem hm2mem.1 (Nat.le_antisymm h1 h2)]

/-- Restricting the tracker set to the study's participants does not change
any cell of a participant in the study. -/
theorem mostRecent_filter_participants (participants : List Nat)
    (trackers : List ForestTask) (p : Nat) (hp : p ∈ participants)
    (tr : ForestTree) (d : Int) :
    mostRecentCoveringStatus
        (trackers.filter (fun t => decide (t.participant ∈ participants))) p tr d =
      mostRecentCoveringStatus trackers p tr d := by
  unfold mostRecentCoveringStatus
  rw [List.filter_filter]
  have hcong : ∀ t ∈ trackers,
      (decide (t.participant = p ∧ t.forest_tree = tr ∧ covers t d) &&
        decide (t.participant ∈ participants)) =
      decide (t.participant = p ∧ t.forest_tree = tr ∧ covers t d) := by
    intro t _
    by_cases hc : t.participant = p ∧ t.forest_tree = tr ∧ covers t d
    · rw [decide_eq_true hc, decide_eq_true (hc.1 ▸ hp)]
      rfl
    · rw [decide_eq_false hc]
      rfl
  rw [List.filter_congr hcong]

/-- C8: the status grid built by `analysis_progress` contains, for every
participant of the study and every tree of the fixed set, the row whose
cell at each date of the charted range is the status of the most recent
(greatest `created_on`) task of that participant and tree whose inclusive
date range covers the date, and the sentinel `"--"` where no task covers
it; and the computation returns the task rows unchanged (it never mutates
them).  Distinct `created_on` stamps make "most recent" well defined. -/
theorem analysis_progress_grid (participants : List Nat) (trackers : List ForestTask)
    (start_date end_date : Int)
    (hnd : (trackers.map ForestTask.created_on).Nodup) :
    (∀ p ∈ participants, ∀ tr ∈ ForestTree.values,
      (toString p :: treeName tr :: (daterange start_date end_date).map
          (fun d => mostRecentCoveringStatus trackers p tr d)) ∈
        (analysis_progress participants trackers start_date end_date).1) ∧
    (analysis_progress participants trackers start_date end_date).2 = trackers := by
  constructor
  · intro p hp tr htr
    have hndm : ((trackers.filter
        (fun t => decide (t.participant ∈ participants))).map ForestTask.created_on).Nodup :=
      hnd.sublist (List.Sublist.map _ (List.filter_sublist _))
    have hrow : (daterange start_date end_date).map
        (fun d => resultsFun
          (trackers.filter (fun t => decide (t.participant ∈ participants))) p tr d) =
        (daterange start_date end_date).map
          (fun d => mostRecentCoveringStatus trackers p tr d) := by
      apply List.map_congr_left
      intro d _
      rw [resultsFun_eq_mostRecent _ hndm,
        mostRecent_filter_participants participants trackers p hp tr d]
    unfold analysis_progress
    simp only
    apply List.mem_flatMap.mpr
    refine ⟨p, hp, ?_⟩
    apply List.mem_map.mpr
    refine ⟨tr, htr, ?_⟩
    rw [hrow]
  · rfl

/-- Witness for C8: one participant with a single successful task covering
days 101-105 inside the charted range 100-107; the spec-side row — success
on exactly the five covered days, sentinel elsewhere — appears in the
chart, and the tracker rows come back unchanged. -/
theorem analysis_progress_grid_witness :
    (toString 7 :: treeName ForestTree.jasmine :: (daterange 100 107).map
        (fun d => mostRecentCoveringStatus
          [egTask 1 7 ForestTree.jasmine 101 105 Status.success 0]
          7 ForestTree.jasmine d)) ∈
      (analysis_progress [7]
        [egTask 1 7 ForestTree.jasmine 101 105 Status.success 0] 100 107).1 ∧
    (analysis_progress [7]
        [egTask 1 7 ForestTree.jasmine 101 105 Status.success 0] 100 107).2 =
      [egTask 1 7 ForestTree.jasmine 101 105 Status.success 0] := by
  have H := analysis_progress_grid [7]
    [egTask 1 7 ForestTree.jasmine 101 105 Status.success 0] 100 107 (by decide)
  exact ⟨H.1 7 (by decide) ForestTree.jasmine (by decide), H.2⟩
